import Mathlib

/-!
# Verification of the viirs-watcher repository

A shallow embedding, in Lean 4, of the core of the `viirs-watcher` Go
program (files `viirs-watcher.go` and `pipeline/pipeline.go`), together
with theorems settling the frozen specification claims.

Modelling conventions:
* Go strings are modelled as `List Char` (`GoStr`), so that every string
  operation is structural recursion and evaluates inside the kernel.
* Go maps (`map[string]*File`, `map[string]interface{}`, ...) are modelled
  as association lists with first-match lookup and replace-or-append
  insertion (`SMap`). Go's random iteration order is fixed to list order;
  no theorem below depends on an iteration order beyond what the Go code
  guarantees for every order.
* `time.Time` values are modelled as `Int` (nanoseconds); `After` is `<`
  read right-to-left, `Before` is `<`. The zero `time.Time` is `0`.
* `interface{}` scalars are the inductive `Value`; Go's `nil` interface is
  `Value.nilV`.
* Filesystem `Stat` is an oracle `GoStr → Option (Int × Int)` giving the
  live `(size, mtime)` of a path, `none` for a stat error.
* Spawning subprocesses and YAML decoding are external collaborators and
  are not modelled; the pipeline is embedded up to the spawn boundary.
-/

set_option maxRecDepth 8000
set_option exponentiation.threshold 2000

deriving instance DecidableEq for Except

namespace VW

/-- Go strings, as lists of characters. -/
abbrev GoStr := List Char

/-- The single-quote character `U+0027`. -/
def sqc : Char := Char.ofNat 39

/-- The replacement character `U+FFFD` returned by `bytes.Buffer.ReadRune`
for invalid UTF-8. -/
def replChar : Char := Char.ofNat 0xFFFD

/-! ## Association maps modelling Go maps -/

/-- A Go `map[string]α`, as an association list. -/
abbrev SMap (α : Type) := List (GoStr × α)

/-- Map lookup (`m[k]` with the ok flag): first matching key. -/
def smFind? {α : Type} : SMap α → GoStr → Option α
  | [], _ => none
  | (k', v') :: rest, k => if k' = k then some v' else smFind? rest k

/-- Map assignment `m[k] = v`: replace in place if present, append otherwise. -/
def smInsert {α : Type} : SMap α → GoStr → α → SMap α
  | [], k, v => [(k, v)]
  | (k', v') :: rest, k, v =>
    if k' = k then (k', v) :: rest else (k', v') :: smInsert rest k v

theorem smFind?_smInsert {α : Type} (m : SMap α) (k q : GoStr) (v : α) :
    smFind? (smInsert m k v) q = if k = q then some v else smFind? m q := by
  induction m with
  | nil =>
    by_cases h : k = q <;> simp [smInsert, smFind?, h]
  | cons hd tl ih =>
    obtain ⟨k', v'⟩ := hd
    by_cases hk : k' = k
    · subst hk
      by_cases hq : k' = q <;> simp [smInsert, smFind?, hq]
    · by_cases hq : k' = q
      · subst hq
        have : ¬ k = k' := fun h => hk h.symm
        simp [smInsert, smFind?, hk, this]
      · simp [smInsert, smFind?, hk, hq, ih]

theorem smFind?_smInsert_isSome {α : Type} (m : SMap α) (k q : GoStr) (v : α)
    (h : (smFind? m q).isSome) : (smFind? (smInsert m k v) q).isSome := by
  rw [smFind?_smInsert]
  by_cases hq : k = q <;> simp [hq, h]

theorem smInsert_length_of_find?_none {α : Type} (m : SMap α) (k : GoStr) (v : α)
    (h : smFind? m k = none) : (smInsert m k v).length = m.length + 1 := by
  induction m with
  | nil => simp [smInsert]
  | cons hd tl ih =>
    obtain ⟨k', v'⟩ := hd
    by_cases hk : k' = k
    · simp [smFind?, hk] at h
    · simp [smFind?, hk] at h
      simp [smInsert, hk, ih h]

theorem smInsert_length_of_find?_some {α : Type} (m : SMap α) (k : GoStr) (v w : α)
    (h : smFind? m k = some w) : (smInsert m k v).length = m.length := by
  induction m with
  | nil => simp [smFind?] at h
  | cons hd tl ih =>
    obtain ⟨k', v'⟩ := hd
    by_cases hk : k' = k
    · simp [smInsert, hk]
    · simp [smFind?, hk] at h
      simp [smInsert, hk, ih h]

/-! ## strconv: `ParseBool`, `ParseInt`, `ParseFloat`

`Variable.Eval` (pipeline.go:61-78) calls `strconv.ParseBool(str)`,
`strconv.ParseInt(str, 10, 64)` and `strconv.ParseFloat(str, 64)` in that
order; only `err == nil` matters to it, plus the parsed value.  The three
parsers are embedded below.  `ParseFloat`'s finite results are idealised
as exact rationals (no rounding to the nearest binary64 is performed);
the overflow error (`ErrRange`) is modelled exactly, underscore-separated
literals are not modelled (no claim exercises them). -/

/-- `strconv.ParseBool`: accepts exactly 1, t, T, TRUE, true, True,
0, f, F, FALSE, false, False. -/
def goParseBool (s : GoStr) : Option Bool :=
  if s = ['1'] ∨ s = ['t'] ∨ s = ['T'] ∨ s = ['T', 'R', 'U', 'E'] ∨
     s = ['t', 'r', 'u', 'e'] ∨ s = ['T', 'r', 'u', 'e'] then some true
  else if s = ['0'] ∨ s = ['f'] ∨ s = ['F'] ∨ s = ['F', 'A', 'L', 'S', 'E'] ∨
     s = ['f', 'a', 'l', 's', 'e'] ∨ s = ['F', 'a', 'l', 's', 'e'] then some false
  else none

/-- Value of a nonempty all-digit string, `none` otherwise. -/
def digitsVal : GoStr → Option Nat
  | [] => none
  | [c] => if c.isDigit then some (c.toNat - 48) else none
  | c :: rest =>
    if c.isDigit then
      match digitsVal rest with
      | some n => some ((c.toNat - 48) * 10 ^ rest.length + n)
      | none => none
    else none

/-- `strconv.ParseInt(s, 10, 64)`: optional sign, decimal digits,
error (here `none`) on empty, stray characters, or 64-bit overflow. -/
def goParseInt (s : GoStr) : Option Int :=
  match s with
  | [] => none
  | c :: rest =>
    let signDigits : Bool × GoStr :=
      if c = '-' then (true, rest) else if c = '+' then (false, rest) else (false, s)
    match digitsVal signDigits.2 with
    | none => none
    | some n =>
      if signDigits.1 then
        if n ≤ 2 ^ 63 then some (-(n : Int)) else none
      else
        if n ≤ 2 ^ 63 - 1 then some (n : Int) else none

/-- A Go `float64` result of `ParseFloat`, idealised: finite values carry
the exactly-parsed rational. -/
inductive GoFloat : Type where
  | finite : ℚ → GoFloat
  | infy : Bool → GoFloat
  | nan : GoFloat
deriving DecidableEq

/-- Span of leading decimal digits. -/
def takeDigits : GoStr → GoStr × GoStr
  | [] => ([], [])
  | c :: rest =>
    if c.isDigit then
      let r := takeDigits rest
      (c :: r.1, r.2)
    else ([], c :: rest)

/-- Span of leading hexadecimal digits. -/
def takeHexDigits : GoStr → GoStr × GoStr
  | [] => ([], [])
  | c :: rest =>
    if c.isDigit ∨ (('a' ≤ c ∧ c ≤ 'f') ∨ ('A' ≤ c ∧ c ≤ 'F')) then
      let r := takeHexDigits rest
      (c :: r.1, r.2)
    else ([], c :: rest)

/-- Numeric value of a digit list in the given base (digits assumed valid). -/
def digitsToNat (base : Nat) : GoStr → Nat → Nat
  | [], acc => acc
  | c :: rest, acc =>
    let d := if c.isDigit then c.toNat - 48
             else if 'a' ≤ c ∧ c ≤ 'f' then c.toNat - 87
             else c.toNat - 55
    digitsToNat base rest (acc * base + d)

/-- Lower-cased copy of a string. -/
def lowerStr (s : GoStr) : GoStr := s.map Char.toLower

/-- Decimal exponent part `e±ddd` of a float literal; returns the exponent
and requires the whole remainder to be consumed. -/
def parseExpPart (expChars : List Char) (s : GoStr) : Option Int :=
  match s with
  | [] => some 0
  | c :: rest =>
    if c ∈ expChars then
      match rest with
      | [] => none
      | d :: ds =>
        let signDigits : Bool × GoStr :=
          if d = '-' then (true, ds) else if d = '+' then (false, ds) else (false, rest)
        match digitsVal signDigits.2 with
        | none => none
        | some n => some (if signDigits.1 then -(Int.ofNat n) else Int.ofNat n)
    else none

/-- Overflow bound of binary64 round-to-nearest: values whose magnitude
reaches `2^1024 - 2^970` round to infinity, which `ParseFloat` reports as
`ErrRange`. -/
def ovfNum : Nat := 2 ^ 1024 - 2 ^ 970

/-- Whether the rational `±(m * base^e)` overflows binary64. -/
def floatOverflows (m : Nat) (base : Nat) (e : Int) : Bool :=
  if 0 ≤ e then decide (ovfNum ≤ m * base ^ e.toNat)
  else decide (ovfNum * base ^ (-e).toNat ≤ m)

/-- The rational `±(m * base^e)`. -/
def sciVal (neg : Bool) (m : Nat) (base : Nat) (e : Int) : ℚ :=
  if 0 ≤ e then
    mkRat (if neg then -(Int.ofNat (m * base ^ e.toNat)) else Int.ofNat (m * base ^ e.toNat)) 1
  else
    mkRat (if neg then -(Int.ofNat m) else Int.ofNat m) (base ^ (-e).toNat)

/-- Parse the decimal mantissa-and-exponent form of a float literal:
digits, optional fraction, optional exponent; the sign has already been
stripped.  Returns the finite value or `none` on malformed input or
binary64 overflow. -/
def parseDecFloat (neg : Bool) (s : GoStr) : Option GoFloat :=
  let ip := takeDigits s
  let fracRes : Option (GoStr × GoStr) :=
    match ip.2 with
    | '.' :: rest =>
      let fp := takeDigits rest
      some (fp.1, fp.2)
    | other => some ([], other)
  match fracRes with
  | none => none
  | some (frac, rest2) =>
    if ip.1 = [] ∧ frac = [] then none
    else
      match parseExpPart ['e', 'E'] rest2 with
      | none => none
      | some ex =>
        let m := digitsToNat 10 (ip.1 ++ frac) 0
        let e : Int := ex - Int.ofNat frac.length
        if floatOverflows m 10 e then none
        else some (.finite (sciVal neg m 10 e))

/-- Parse the hexadecimal form `0x…p±ddd` of a float literal (sign already
stripped).  The binary exponent is mandatory in Go. -/
def parseHexFloat (neg : Bool) (s : GoStr) : Option GoFloat :=
  match s with
  | z :: x :: rest =>
    if z = '0' ∧ (x = 'x' ∨ x = 'X') then
      let ip := takeHexDigits rest
      let fracRes : GoStr × GoStr :=
        match ip.2 with
        | '.' :: r2 => takeHexDigits r2
        | other => ([], other)
      if ip.1 = [] ∧ fracRes.1 = [] then none
      else
        match fracRes.2 with
        | [] => none
        | p :: _ =>
          if p = 'p' ∨ p = 'P' then
            match parseExpPart ['p', 'P'] fracRes.2 with
            | none => none
            | some ex =>
              let m := digitsToNat 16 (ip.1 ++ fracRes.1) 0
              let e : Int := ex - Int.ofNat (4 * fracRes.1.length)
              if floatOverflows m 2 e then none
              else some (.finite (sciVal neg m 2 e))
          else none
    else none
  | _ => none

/-- `strconv.ParseFloat(s, 64)` restricted to `err == nil` results:
`some` iff Go returns a nil error, carrying the idealised value. -/
def goParseFloat (s : GoStr) : Option GoFloat :=
  match s with
  | [] => none
  | c :: rest =>
    let signBody : Bool × GoStr :=
      if c = '-' then (true, rest) else if c = '+' then (false, rest) else (false, s)
    let neg := signBody.1
    let body := signBody.2
    let lb := lowerStr body
    if lb = ['i', 'n', 'f'] ∨ lb = ['i', 'n', 'f', 'i', 'n', 'i', 't', 'y'] then
      some (.infy neg)
    else if lb = ['n', 'a', 'n'] then some .nan
    else
      match body with
      | z :: x :: _ =>
        if z = '0' ∧ (x = 'x' ∨ x = 'X') then parseHexFloat neg body
        else parseDecFloat neg body
      | _ => parseDecFloat neg body

/-! ## Scalar values (`interface{}`) -/

/-- A Go `interface{}` scalar as it occurs in execution contexts:
the YAML decoder produces booleans, int64s, float64s and strings, and the
zero interface is `nil`. -/
inductive Value : Type where
  | nilV : Value
  | boolV : Bool → Value
  | intV : Int → Value
  | floatV : GoFloat → Value
  | strV : GoStr → Value
deriving DecidableEq

/-- Whether a value is a Go `string` (the `v.Value.(string)` assertion). -/
def Value.isStr : Value → Bool
  | .strV _ => true
  | _ => false

/-- An execution context `map[string]interface{}`. -/
abbrev Ctx := SMap Value

/-- Rendering of a context value by `text/template` (`fmt`'s `%v` verb).
Floats are given a simplified decimal `num/den` rendering rather than
`%g`; no claim renders a float into a template. -/
def formatValue : Value → GoStr
  | .nilV => ['<', 'n', 'o', ' ', 'v', 'a', 'l', 'u', 'e', '>']
  | .boolV true => ['t', 'r', 'u', 'e']
  | .boolV false => ['f', 'a', 'l', 's', 'e']
  | .intV n =>
    if n < 0 then '-' :: Nat.toDigits 10 (-n).toNat else Nat.toDigits 10 n.toNat
  | .floatV (.finite q) =>
    (if q.num < 0 then ['-'] else []) ++ Nat.toDigits 10 q.num.natAbs ++
    '/' :: Nat.toDigits 10 q.den
  | .floatV (.infy true) => ['-', 'I', 'n', 'f']
  | .floatV (.infy false) => ['+', 'I', 'n', 'f']
  | .floatV .nan => ['N', 'a', 'N']
  | .strV s => s

/-! ## The template engine (`text/template` with delimiters `((`/`))`)

The repository only ever renders templates whose actions are dotted field
chains over a `map[string]interface{}` of scalars (`((.Name))`).  The
embedding below models exactly this fragment of `text/template`:
literal text plus `.Field.Field…` actions.  Any other action body is a
compile error in the model (a conservative restriction; the claims only
exercise this fragment), and an unclosed `((` is a compile error both in
Go and here.  At render time a single-field action on a missing key
prints `<no value>` (the `missingkey=default` behaviour for maps), and a
chain of two or more fields errors because every context value is a
scalar — mirroring Go's `can't evaluate field … in type interface {}`. -/

/-- Template compile/render errors. -/
inductive TplErr : Type where
  | unclosedAct : TplErr
  | badAct : TplErr
  | cantEvalField : TplErr
  | nilTemplate : TplErr
deriving DecidableEq

/-- One compiled template node. -/
inductive Chunk : Type where
  | lit : GoStr → Chunk
  | field : List GoStr → Chunk
deriving DecidableEq

/-- A compiled template (`*template.Template`). -/
abbrev Tpl := List Chunk

/-- Identifier characters of a template field name. -/
def isIdentChar (c : Char) : Bool := c.isAlphanum ∨ c = '_'

/-- A valid template field identifier: nonempty, letter or underscore
first, identifier characters after. -/
def validIdent : GoStr → Bool
  | [] => false
  | c :: rest => (c.isAlpha ∨ c = '_') ∧ rest.all isIdentChar

/-- Split a list on a separator character (Go `strings.Split` with a
one-character separator). -/
def splitOnChar (sep : Char) : GoStr → List GoStr
  | [] => [[]]
  | c :: rest =>
    let r := splitOnChar sep rest
    if c = sep then [] :: r
    else
      match r with
      | h :: t => (c :: h) :: t
      | [] => [[c]]

/-- Trim action-body whitespace. -/
def trimWs (s : GoStr) : GoStr :=
  ((s.dropWhile (fun c => c = ' ' ∨ c = '\t')).reverse.dropWhile
    (fun c => c = ' ' ∨ c = '\t')).reverse

/-- Parse an action body: a dotted field chain `.A.B…`. -/
def parseAct (s : GoStr) : Option (List GoStr) :=
  match trimWs s with
  | '.' :: rest =>
    let parts := splitOnChar '.' rest
    if parts.all (fun p => validIdent p) then some parts else none
  | _ => none

/-- Scanner states of the template compiler. -/
inductive PState : Type where
  | txt : PState
  | txtLP : PState
  | act : PState
  | actRP : PState
deriving DecidableEq

/-- Append a pending literal chunk if nonempty. -/
def pushLit (l : GoStr) (acc : Tpl) : Tpl :=
  if l = [] then acc else acc ++ [Chunk.lit l]

/-- Template compiler core: literal text until `((`, an action body until
`))`; unclosed actions and unsupported action bodies fail. -/
def parseTplGo : PState → GoStr → GoStr → Tpl → GoStr → Except TplErr Tpl
  | .txt, l, _, acc, [] => .ok (pushLit l acc)
  | .txtLP, l, _, acc, [] => .ok (pushLit (l ++ ['(']) acc)
  | .act, _, _, _, [] => .error .unclosedAct
  | .actRP, _, _, _, [] => .error .unclosedAct
  | .txt, l, a, acc, c :: rest =>
    if c = '(' then parseTplGo .txtLP l a acc rest
    else parseTplGo .txt (l ++ [c]) a acc rest
  | .txtLP, l, a, acc, c :: rest =>
    if c = '(' then parseTplGo .act l [] acc rest
    else parseTplGo .txt (l ++ ['(', c]) a acc rest
  | .act, l, a, acc, c :: rest =>
    if c = ')' then parseTplGo .actRP l a acc rest
    else parseTplGo .act l (a ++ [c]) acc rest
  | .actRP, l, a, acc, c :: rest =>
    if c = ')' then
      match parseAct a with
      | some chain => parseTplGo .txt [] [] (pushLit l acc ++ [Chunk.field chain]) rest
      | none => .error .badAct
    else parseTplGo .act l (a ++ [')', c]) acc rest

/-- `template.New(name).Delims("((", "))").Parse(src)`. -/
def parseTpl (src : GoStr) : Except TplErr Tpl :=
  parseTplGo .txt [] [] [] src

/-- Render one template node against a context of scalars. -/
def renderChunk (ctx : Ctx) : Chunk → Except TplErr GoStr
  | .lit s => .ok s
  | .field [] => .error .badAct
  | .field [k] =>
    match smFind? ctx k with
    | some v => .ok (formatValue v)
    | none => .ok (formatValue Value.nilV)
  | .field (_ :: _ :: _) => .error .cantEvalField

/-- `tpl.Execute(&buf, ctx)`: concatenate the rendered nodes, stopping at
the first render error. -/
def renderTpl (t : Tpl) (ctx : Ctx) : Except TplErr GoStr :=
  match t with
  | [] => .ok []
  | ch :: rest =>
    match renderChunk ctx ch with
    | .error e => .error e
    | .ok s =>
      match renderTpl rest ctx with
      | .error e => .error e
      | .ok s' => .ok (s ++ s')

/-! ## Variables and coercion (pipeline.go:20-78) -/

/-- The `pipeline.Variable` struct: name, raw YAML value, and the
compiled template (`nil` before `Prepare`, and for non-string values). -/
structure GoVar : Type where
  vname : GoStr
  value : Value
  expression : Option Tpl
deriving DecidableEq

/-- A variable as produced by the YAML unmarshaller: no compiled
template yet. -/
def mkRawVar (n : GoStr) (val : Value) : GoVar :=
  { vname := n, value := val, expression := none }

/-- `Variable.Prepare` (pipeline.go:48-59): compile string values,
leave the rest untouched. -/
def varPrepare (v : GoVar) : Except TplErr GoVar :=
  match v.value with
  | .strV s =>
    match parseTpl s with
    | .ok t => .ok { v with expression := some t }
    | .error e => .error e
  | _ => .ok v

/-- The coercion cascade of `Variable.Eval` (pipeline.go:70-77):
`ParseBool`, then `ParseInt(…, 10, 64)`, then `ParseFloat(…, 64)`,
first success wins, otherwise keep the string. -/
def coerce (s : GoStr) : Value :=
  match goParseBool s with
  | some b => .boolV b
  | none =>
    match goParseInt s with
    | some n => .intV n
    | none =>
      match goParseFloat s with
      | some f => .floatV f
      | none => .strV s

/-- `Variable.Eval` (pipeline.go:61-78): a variable without a compiled
template evaluates to its raw value; otherwise the template is rendered
against the context and the result coerced. -/
def varEval (v : GoVar) (ctx : Ctx) : Except TplErr Value :=
  match v.expression with
  | none => .ok v.value
  | some t =>
    match renderTpl t ctx with
    | .error e => .error e
    | .ok s => .ok (coerce s)

/-! ## Steps (pipeline.go:80-208) -/

/-- The `pipeline.Step` struct. -/
structure GoStep : Type where
  sname : GoStr
  vars : List GoVar
  commandSrc : GoStr
  command : Option Tpl
deriving DecidableEq

/-- `Step.Prepare` (pipeline.go:97-109): prepare the local variables in
order, then compile the command template.  On failure the step keeps the
already-prepared prefix of its variables (in-place mutation). -/
def stepPrepare (s : GoStep) : GoStep × Option TplErr :=
  let rec goVars : List GoVar → List GoVar × Option TplErr
    | [] => ([], none)
    | v :: vs =>
      match varPrepare v with
      | .error e => (v :: vs, some e)
      | .ok v' =>
        let r := goVars vs
        (v' :: r.1, r.2)
  let r := goVars s.vars
  match r.2 with
  | some e => ({ s with vars := r.1 }, some e)
  | none =>
    match parseTpl s.commandSrc with
    | .error e => ({ s with vars := r.1 }, some e)
    | .ok t => ({ s with vars := r.1, command := some t }, none)

/-- The loop of `Step.EvalVariables` (pipeline.go:116-122): evaluate each
local variable against the *shared* context `ctx` and write the result
into the accumulating copy, stopping at the first error. -/
def evalVarsInto : List GoVar → Ctx → Ctx → Except TplErr Ctx
  | [], _, acc => .ok acc
  | v :: vs, ctx, acc =>
    match varEval v ctx with
    | .ok val => evalVarsInto vs ctx (smInsert acc v.vname val)
    | .error e => .error e

/-- The write-back loop of `Step.EvalVariables` (pipeline.go:123-125):
`for k := range ctx { ctx[k] = nctx[k] }`.  A key of `ctx` missing from
`nctx` would become the `nil` interface (it cannot, since `nctx` starts
as a copy of `ctx`). -/
def writeBack (ctx nctx : Ctx) : Ctx :=
  ctx.map (fun kv => (kv.1, (smFind? nctx kv.1).getD Value.nilV))

/-- `Step.EvalVariables` (pipeline.go:111-127).  Returns the Go result
(the step-local map or the first evaluation error) paired with the shared
context as it stands after the call: mutated by the write-back loop on
success, untouched on error. -/
def stepEvalVariables (s : GoStep) (ctx : Ctx) : Except TplErr Ctx × Ctx :=
  match evalVarsInto s.vars ctx ctx with
  | .ok nctx => (.ok nctx, writeBack ctx nctx)
  | .error e => (.error e, ctx)

/-! ## The command tokenizer (pipeline.go:138-199)

The rune loop of `Step.Exec` is embedded verbatim: the first iteration
runs on the zero rune (dropped by the `r == 0` guard, so folding over the
input characters is equivalent), `U+FFFD` and `NUL` runes are skipped, and
`wrap` emits the accumulator only when nonempty.  Note that the Go code
never assigns `state = DEFAULT` after entering `IN_SQ`, `IN_DQ` or
`ESCAPED`; the embedding reproduces this. -/

/-- Lexer states `DEFAULT`, `IN_SQ`, `IN_DQ`, `ESCAPED`. -/
inductive TState : Type where
  | dflt : TState
  | inSQ : TState
  | inDQ : TState
  | escaped : TState
deriving DecidableEq

/-- `wrap()` (pipeline.go:148-153): flush a nonempty accumulator. -/
def wrapTok (acc : GoStr) (toks : List GoStr) : List GoStr :=
  if acc = [] then toks else toks ++ [acc]

/-- One iteration of the rune loop: next state, accumulator and token
list. -/
def tokBranch (st : TState) (acc : GoStr) (toks : List GoStr) (c : Char) :
    TState × GoStr × List GoStr :=
  if c = replChar ∨ c = Char.ofNat 0 then (st, acc, toks)
  else
    match st with
    | .dflt =>
      if c = ' ' ∨ c = '\n' ∨ c = '\t' ∨ c = '\r' then (.dflt, [], wrapTok acc toks)
      else if c = sqc then (.inSQ, acc, toks)
      else if c = '"' then (.inDQ, acc, toks)
      else if c = '\\' then (.escaped, acc, toks)
      else (.dflt, acc ++ [c], toks)
    | .inSQ =>
      if c = sqc then (.inSQ, [], wrapTok acc toks) else (.inSQ, acc ++ [c], toks)
    | .inDQ =>
      if c = '"' then (.inDQ, [], wrapTok acc toks) else (.inDQ, acc ++ [c], toks)
    | .escaped => (.escaped, acc ++ [c], toks)

/-- The rune loop; at end of input the accumulator is flushed. -/
def tokGo : TState → GoStr → List GoStr → GoStr → List GoStr
  | _, acc, toks, [] => wrapTok acc toks
  | st, acc, toks, c :: rest =>
    let b := tokBranch st acc toks c
    tokGo b.1 b.2.1 b.2.2 rest

/-- The tokenizer of `Step.Exec` applied to the rendered command text. -/
def tokenize (s : GoStr) : List GoStr :=
  tokGo .dflt [] [] s

/-- `Step.Exec` (pipeline.go:129-208) up to the process-spawn boundary:
evaluate the local variables (with partial write-back), render the
command template against the step-local map, tokenize, and split into
executable and argument vector.  The pair's second component is the
shared context after the call.  A `nil` compiled template (possible only
when a `Prepare` error was ignored) panics in Go; here it is the error
`nilTemplate`. -/
def stepExec (s : GoStep) (ctx : Ctx) : Except TplErr (GoStr × List GoStr) × Ctx :=
  match stepEvalVariables s ctx with
  | (.error e, ctx') => (.error e, ctx')
  | (.ok nctx, ctx') =>
    match s.command with
    | none => (.error .nilTemplate, ctx')
    | some c =>
      match renderTpl c nctx with
      | .error e => (.error e, ctx')
      | .ok txt =>
        let toks := tokenize txt
        (.ok (toks.headD [], toks.tail), ctx')

/-! ## Pipelines (pipeline.go:210-252) and the `readConfig` tail -/

/-- The `pipeline.Pipeline` struct. -/
structure GoPipeline : Type where
  pvars : List GoVar
  steps : List GoStep
deriving DecidableEq

/-- The variable loop of `Pipeline.Prepare` (pipeline.go:217-221). -/
def prepVarsGo : List GoVar → List GoVar × Option TplErr
  | [] => ([], none)
  | v :: vs =>
    match varPrepare v with
    | .error e => (v :: vs, some e)
    | .ok v' =>
      let r := prepVarsGo vs
      (v' :: r.1, r.2)

/-- The step loop of `Pipeline.Prepare` (pipeline.go:222-226). -/
def prepStepsGo : List GoStep → List GoStep × Option TplErr
  | [] => ([], none)
  | s :: ss =>
    let r := stepPrepare s
    match r.2 with
    | some e => (r.1 :: ss, some e)
    | none =>
      let rest := prepStepsGo ss
      (r.1 :: rest.1, rest.2)

/-- `Pipeline.Prepare` (pipeline.go:216-228): compile every variable and
step template in order; the first error stops compilation and is
returned, leaving the pipeline partially prepared (in-place mutation). -/
def pipelinePrepare (p : GoPipeline) : GoPipeline × Option TplErr :=
  let rv := prepVarsGo p.pvars
  match rv.2 with
  | some e => ({ p with pvars := rv.1 }, some e)
  | none =>
    let rs := prepStepsGo p.steps
    ({ p with pvars := rv.1, steps := rs.1 }, rs.2)

/-- The tail of `readConfig` (viirs-watcher.go:314-316):
`pipeline = cfg.Pipeline; pipeline.Prepare(); return nil`.
The return value of `Prepare` is discarded, so `readConfig` reports
success whatever happened; the YAML decoding that precedes this tail is
an external collaborator and is assumed to have succeeded. -/
def readConfigFinish (cfgPipeline : GoPipeline) : Except TplErr GoPipeline :=
  .ok (pipelinePrepare cfgPipeline).1

/-- `main` (viirs-watcher.go:319-327) reaches the watch loop exactly when
`readConfig` reports no error. -/
def mainReachesWatchLoop (cfgPipeline : GoPipeline) : Bool :=
  match readConfigFinish cfgPipeline with
  | .ok _ => true
  | .error _ => false

/-! ## The watcher (viirs-watcher.go:103-265) -/

/-- The `File` struct (viirs-watcher.go:103-109).  `kindTag` is the
`Prefix` field, which the code fills with the first underscore-token of
the file name (viirs-watcher.go:248), not with the matched required
prefix. -/
structure WFile : Type where
  kindTag : GoStr
  fname : GoStr
  fullpath : GoStr
  fsize : Int
  fmtime : Int
deriving DecidableEq

/-- The `FileGroup` struct (viirs-watcher.go:111-118), without the
`HasNight` flag (set only by the excluded quality gate). -/
structure WGroup : Type where
  files : SMap WFile
  lastModified : Int
  gpath : GoStr
  gid : GoStr
  requiredFound : Nat
deriving DecidableEq

/-- The mutable state of a `Watcher` (viirs-watcher.go:158-164):
the `found` and `ready` registries. -/
structure WSt : Type where
  wfound : SMap WGroup
  wready : SMap WGroup
deriving DecidableEq

/-- `NewWatcher`'s initial registries (viirs-watcher.go:166-177). -/
def initWatcher : WSt := { wfound := [], wready := [] }

/-- One discovery fed to the walk callback: the walked path, the file
name, its size and mtime, plus the live-stat oracle consulted by
`AnyChanged` during this callback. -/
structure Ev : Type where
  epath : GoStr
  ename : GoStr
  esize : Int
  emtime : Int
  estat : GoStr → Option (Int × Int)

/-- `filepath.Ext`: suffix from the final dot of the final element. -/
def goExtRev : GoStr → GoStr → GoStr
  | [], _ => []
  | c :: rest, acc =>
    if c = '/' then []
    else if c = '.' then '.' :: acc
    else goExtRev rest (c :: acc)

/-- `filepath.Ext p`. -/
def goExt (p : GoStr) : GoStr := goExtRev p.reverse []

/-- `filepath.Split`'s directory part: everything up to and including the
final slash. -/
def goDirOf (p : GoStr) : GoStr :=
  (p.reverse.dropWhile (fun c => ¬ c = '/')).reverse

/-- `filepath.Base`. -/
def goBase (p : GoStr) : GoStr :=
  if p = [] then ['.']
  else
    let q := (p.reverse.dropWhile (fun c => c = '/')).reverse
    if q = [] then ['/']
    else (q.reverse.takeWhile (fun c => ¬ c = '/')).reverse

/-- `getId` (viirs-watcher.go:67-75): split the base name on `_`, require
at least six tokens, join tokens 1-4. -/
def getId (file : GoStr) : Except Unit GoStr :=
  let parts := splitOnChar '_' (goBase file)
  if parts.length < 6 then .error ()
  else .ok (List.intercalate ['_'] ((parts.drop 1).take 4))

/-- `Watcher.isRequired` (viirs-watcher.go:179-186), as the boolean the
walk callback uses. -/
def isRequiredB (req : List GoStr) (s : GoStr) : Bool :=
  req.any (fun r => r.isPrefixOf s)

/-- `FileGroup.AnyChanged` (viirs-watcher.go:120-132): stat every tracked
file; a stat failure aborts with the error, a live mtime strictly after
or a live size strictly greater than the recorded one yields `true`,
otherwise `false`. -/
def anyChanged (stat : GoStr → Option (Int × Int)) : List (GoStr × WFile) → Except Unit Bool
  | [] => .ok false
  | (_, f) :: rest =>
    match stat f.fullpath with
    | none => .error ()
    | some (sz, mt) =>
      if f.fmtime < mt ∨ f.fsize < sz then .ok true else anyChanged stat rest

/-- The `File` built on first registration (viirs-watcher.go:247-253). -/
def mkWFile (e : Ev) : WFile :=
  { kindTag := (splitOnChar '_' e.ename).headD []
    fname := e.ename
    fullpath := e.epath
    fsize := e.esize
    fmtime := e.emtime }

/-- The file registration and size/mtime refresh of the walk callback
(viirs-watcher.go:244-259): a file name new to the group is registered
and increments the found-count; in all cases the file's size/mtime are
set to the observed values. -/
def updFiles (e : Ev) (g : WGroup) : WGroup :=
  match smFind? g.files e.ename with
  | none =>
    { g with
      files := smInsert g.files e.ename (mkWFile e)
      requiredFound := g.requiredFound + 1 }
  | some f =>
    { g with
      files := smInsert g.files e.ename { f with fsize := e.esize, fmtime := e.emtime } }

/-- The `LastModified` refresh (viirs-watcher.go:240-242) followed by the
file registration, as the walk callback applies them to the resolved
group. -/
def updGroup (e : Ev) (grp0 : WGroup) : WGroup :=
  updFiles e
    (if grp0.lastModified < e.emtime then { grp0 with lastModified := e.emtime } else grp0)

/-- The readiness check of the walk callback (viirs-watcher.go:223-238):
whether the group is claimed into `ready` this round, and whether it is
dispatched to `Process`. -/
def readyDisp (req : List GoStr) (launch : Int) (e : Ev) (id : GoStr) (grp0 : WGroup) :
    Bool × Option GoStr :=
  if req.length = grp0.requiredFound then
    match anyChanged e.estat grp0.files with
    | .error _ => (false, none)
    | .ok true => (false, none)
    | .ok false => (true, if launch < grp0.lastModified then some id else none)
  else (false, none)

/-- The walk callback from the group-resolution point on
(viirs-watcher.go:223-261): readiness check and possible claim/dispatch
(done against the group as found, before this round's refresh), then the
`LastModified`/file refresh.  Returns the new state and the dispatched
id, if `Process` was invoked.  `launch` is `launchTime`. -/
def groupAfter (req : List GoStr) (launch : Int) (st : WSt) (e : Ev) (id : GoStr)
    (grp0 : WGroup) : WSt × Option GoStr :=
  let rd := readyDisp req launch e id grp0
  let grp2 := updGroup e grp0
  ({ wfound := smInsert st.wfound id grp2
     wready := if rd.1 then smInsert st.wready id grp2 else st.wready },
   rd.2)

/-- The walk callback of `Watcher.Watch` (viirs-watcher.go:191-262) for
one discovered file. -/
def watchStep (req : List GoStr) (launch : Int) (st : WSt) (e : Ev) : WSt × Option GoStr :=
  if ¬ goExt e.epath = ['.', 'h', '5'] then (st, none)
  else if ¬ isRequiredB req e.ename then (st, none)
  else
    match getId e.ename with
    | .error _ => (st, none)
    | .ok id =>
      if (smFind? st.wready id).isSome then (st, none)
      else
        match smFind? st.wfound id with
        | some grp0 => groupAfter req launch st e id grp0
        | none =>
          if e.emtime < launch then (st, none)
          else
            groupAfter req launch st e id
              { files := [], lastModified := 0, gpath := goDirOf e.epath
                gid := id, requiredFound := 0 }

/-- A run of the watch loop over a sequence of discoveries: final state
and the ids dispatched to `Process`, in order. -/
def watchRun (req : List GoStr) (launch : Int) : WSt → List Ev → WSt × List GoStr
  | st, [] => (st, [])
  | st, e :: evs =>
    let r := watchStep req launch st e
    let rest := watchRun req launch r.1 evs
    (rest.1, r.2.toList ++ rest.2)

/-! ## Concrete inputs used by witnesses and counterexamples -/

/-- The spec's tokenizer example `cmd -o "a b" 'c d' e\ f`. -/
def tokExample : GoStr :=
  ['c', 'm', 'd', ' ', '-', 'o', ' ', '"', 'a', ' ', 'b', '"', ' '] ++
  [sqc, 'c', ' ', 'd', sqc] ++ [' ', 'e', '\\', ' ', 'f']

/-- What the code actually produces for `tokExample`. -/
def tokExampleOut : List GoStr :=
  [['c', 'm', 'd'], ['-', 'o'], ['a', ' ', 'b'],
   [' ', sqc, 'c', ' ', 'd', sqc, ' ', 'e', '\\', ' ', 'f']]

/-- The token list the spec claims for `tokExample`. -/
def tokExampleClaimed : List GoStr :=
  [['c', 'm', 'd'], ['-', 'o'], ['a', ' ', 'b'], ['c', ' ', 'd'], ['e', ' ', 'f']]

/-- A step-local variable `V1 = "new"` (literal template, as compiled by
`Prepare`). -/
def varV1 : GoVar :=
  { vname := ['V', '1'], value := .strV ['n', 'e', 'w']
    expression := some [.lit ['n', 'e', 'w']] }

/-- A step-local variable `V2 = "((.V1))"`, compiled. -/
def varV2 : GoVar :=
  { vname := ['V', '2'], value := .strV []
    expression := some [.field [['V', '1']]] }

/-- A step declaring `V1` then `V2`. -/
def stepV12 : GoStep :=
  { sname := [], vars := [varV1, varV2], commandSrc := [], command := none }

/-- A shared context in which `V1` is already bound to `"old"`. -/
def ctxV1old : Ctx := [(['V', '1'], .strV ['o', 'l', 'd'])]

/-- Step-local variable `X = "2"` of the spec's leakage example, compiled. -/
def varX2 : GoVar :=
  { vname := ['X'], value := .strV ['2'], expression := some [.lit ['2']] }

/-- Step-local variable `Y = "9"` of the spec's leakage example, compiled. -/
def varY9 : GoVar :=
  { vname := ['Y'], value := .strV ['9'], expression := some [.lit ['9']] }

/-- The step of the spec's leakage example: declares pre-existing `X` and
fresh `Y`. -/
def stepXY : GoStep :=
  { sname := [], vars := [varX2, varY9], commandSrc := [], command := none }

/-- Shared context `X = 1` before the leakage-example step. -/
def ctxX1 : Ctx := [(['X'], .intV 1)]

/-- A variable whose template `((.A.B))` always fails to render against a
scalar context. -/
def varBadChain : GoVar :=
  { vname := ['B'], value := .strV [], expression := some [.field [['A'], ['B']]] }

/-- A step whose single local variable fails to evaluate. -/
def stepBadVar : GoStep :=
  { sname := [], vars := [varBadChain], commandSrc := [], command := none }

/-- A step whose command template `((` does not compile. -/
def stepBadCmd : GoStep :=
  { sname := [], vars := [], commandSrc := ['(', '('], command := none }

/-- A pipeline containing only `stepBadCmd`. -/
def pipeBadCmd : GoPipeline := { pvars := [], steps := [stepBadCmd] }

/-- A tracked file recorded with size 10 and mtime 7. -/
def fileRec107 : WFile :=
  { kindTag := [], fname := ['n'], fullpath := ['p'], fsize := 10, fmtime := 7 }

/-- A stat oracle under which `fileRec107`'s live size has shrunk to 5
(mtime unchanged). -/
def statShrunk : GoStr → Option (Int × Int) :=
  fun q => if q = ['p'] then some (5, 7) else none

/-- A stat oracle under which `fileRec107`'s live size has grown to 12. -/
def statGrown : GoStr → Option (Int × Int) :=
  fun q => if q = ['p'] then some (12, 7) else none

/-- The required-prefix list `["A"]`. -/
def reqA : List GoStr := [['A']]

/-- Discovery of `/d/A_a_b_c_d_1.h5` (size 1, mtime 5). -/
def evA1 : Ev :=
  { epath := ['/', 'd', '/', 'A', '_', 'a', '_', 'b', '_', 'c', '_', 'd', '_', '1', '.', 'h', '5']
    ename := ['A', '_', 'a', '_', 'b', '_', 'c', '_', 'd', '_', '1', '.', 'h', '5']
    esize := 1, emtime := 5, estat := fun _ => none }

/-- Discovery of `/d/A_a_b_c_d_2.h5` (size 1, mtime 6): a second distinct
file of the same group carrying the same required prefix `A`. -/
def evA2 : Ev :=
  { epath := ['/', 'd', '/', 'A', '_', 'a', '_', 'b', '_', 'c', '_', 'd', '_', '2', '.', 'h', '5']
    ename := ['A', '_', 'a', '_', 'b', '_', 'c', '_', 'd', '_', '2', '.', 'h', '5']
    esize := 1, emtime := 6, estat := fun _ => none }

/-- The group id shared by `evA1` and `evA2`. -/
def idA : GoStr := ['a', '_', 'b', '_', 'c', '_', 'd']

/-! ## Tokenizer lemmas -/

theorem wrapTok_ne_nil (acc : GoStr) (toks : List GoStr)
    (h : ∀ t ∈ toks, ¬ t = []) : ∀ t ∈ wrapTok acc toks, ¬ t = [] := by
  intro t ht
  by_cases ha : acc = []
  · simp [wrapTok, ha] at ht
    exact h t ht
  · simp [wrapTok, ha] at ht
    rcases ht with ht | ht
    · exact h t ht
    · rw [ht]; exact ha

theorem tokBranch_toks (st : TState) (acc : GoStr) (toks : List GoStr) (c : Char) :
    (tokBranch st acc toks c).2.2 = toks ∨
    (tokBranch st acc toks c).2.2 = wrapTok acc toks := by
  cases st <;> simp only [tokBranch] <;> split_ifs <;> simp

theorem tokGo_ne_nil (input : GoStr) : ∀ (st : TState) (acc : GoStr) (toks : List GoStr),
    (∀ t ∈ toks, ¬ t = []) → ∀ t ∈ tokGo st acc toks input, ¬ t = [] := by
  induction input with
  | nil =>
    intro st acc toks h
    exact wrapTok_ne_nil acc toks h
  | cons c rest ih =>
    intro st acc toks h t ht
    have hb := tokBranch_toks st acc toks c
    have hnext : ∀ u ∈ (tokBranch st acc toks c).2.2, ¬ u = [] := by
      rcases hb with hb | hb
      · rw [hb]; exact h
      · rw [hb]; exact wrapTok_ne_nil acc toks h
    exact ih _ _ _ hnext t ht

/-! ## Claim C3 (code bug)

The spec says a matching closing quote returns the lexer to `DEFAULT`
and that `cmd -o "a b" 'c d' e\ f` tokenizes to
`["cmd","-o","a b","c d","e f"]`.  The code's `IN_SQ`/`IN_DQ` (and
`ESCAPED`) cases never assign `state = DEFAULT` (pipeline.go:172-188), so
after the first closing quote the lexer stays inside the quote state and
treats the remaining whitespace, quotes and backslashes as literal
characters. -/

/-- C3: evaluating the tokenizer of `Step.Exec` at the spec's example
input.  The closing quote flushes the token but leaves the lexer in the
quote state, so the code yields `["cmd","-o","a b"," 'c d' e\ f"]`, not
the claimed `["cmd","-o","a b","c d","e f"]`. -/
theorem tokenize_quote_state_example :
    tokenize tokExample = tokExampleOut ∧ ¬ tokenize tokExample = tokExampleClaimed := by
  exact ⟨by decide, by decide⟩

/-! ## Claim C8 (corrected)

`wrap()` (pipeline.go:148-153) appends the accumulator only when it is
nonempty, so the closing quote of `''` emits nothing: `''` tokenizes to
zero tokens, not to one empty-string token. -/

/-- C8 counterexample: tokenizing the two-character input `''` yields the
empty token list, not the claimed singleton `[""]`. -/
theorem tokenize_empty_quotes_counterexample :
    tokenize [sqc, sqc] = [] ∧ ¬ tokenize [sqc, sqc] = [[]] := by
  exact ⟨by decide, by decide⟩

/-- C8 amended: a matching closing quote ends the current token but the
flush emits it only when its accumulator is nonempty — `''` yields zero
tokens, and no input ever produces an empty-string token. -/
theorem tokenize_never_empty_token :
    tokenize [sqc, sqc] = [] ∧ ∀ s : GoStr, (tokenize s).count [] = 0 := by
  constructor
  · decide
  · intro s
    rw [List.count_eq_zero]
    intro hmem
    exact tokGo_ne_nil s .dflt [] [] (by intro t ht; cases ht) [] hmem rfl

/-! ## Claim C5 (corrected)

`AnyChanged` (viirs-watcher.go:120-132) compares with
`inf.ModTime().After(f.LastModified) || inf.Size() > f.Size`: strictly
later mtime or strictly larger size.  A live size smaller than the
recorded one (or an earlier mtime) differs but is not reported. -/

/-- C5 counterexample: a group whose single tracked file stats
successfully with live size 5 against recorded size 10 (mtime equal)
*differs* from its record, yet `AnyChanged` returns `false`. -/
theorem anyChanged_shrunk_counterexample :
    anyChanged statShrunk [(['n'], fileRec107)] = .ok false ∧
    statShrunk fileRec107.fullpath = some (5, 7) ∧
    fileRec107.fsize = 10 ∧ ¬ (5 : Int) = 10 := by
  exact ⟨by decide, by decide, by decide, by decide⟩

/-- Whether the code's stability comparison flags a file: live mtime
strictly after or live size strictly greater than recorded. -/
def grownB (stat : GoStr → Option (Int × Int)) (f : WFile) : Bool :=
  match stat f.fullpath with
  | some (sz, mt) => f.fmtime < mt ∨ f.fsize < sz
  | none => false

/-- C5 amended: for a group whose tracked files all stat successfully,
`AnyChanged` returns `true` iff at least one tracked file's live
modification time is strictly later, or its live size strictly greater,
than the recorded value. -/
theorem anyChanged_strict_growth (stat : GoStr → Option (Int × Int))
    (files : List (GoStr × WFile))
    (h : ∀ kf ∈ files, (stat kf.2.fullpath).isSome) :
    anyChanged stat files = .ok (files.any (fun kf => grownB stat kf.2)) := by
  induction files with
  | nil => simp [anyChanged]
  | cons kf rest ih =>
    obtain ⟨k, f⟩ := kf
    have hs : (stat f.fullpath).isSome := h (k, f) (List.mem_cons_self _ _)
    obtain ⟨p, hp⟩ := Option.isSome_iff_exists.mp hs
    obtain ⟨sz, mt⟩ := p
    have hg : grownB stat f = decide (f.fmtime < mt ∨ f.fsize < sz) := by
      simp only [grownB, hp]
    by_cases hc : f.fmtime < mt ∨ f.fsize < sz
    · simp only [anyChanged, hp, List.any_cons, hg, if_pos hc]
      simp [hc]
    · have hrest := ih (fun kf hk => h kf (List.mem_cons_of_mem _ hk))
      simp only [anyChanged, hp, List.any_cons, hg, if_neg hc, hrest]
      simp [hc]

/-- C5 witness: the amended theorem applied to `fileRec107` under the
`statGrown` oracle, whose live size 12 exceeds the recorded 10. -/
theorem anyChanged_strict_growth_witness :
    anyChanged statGrown [(['n'], fileRec107)] = .ok true := by
  have h := anyChanged_strict_growth statGrown [(['n'], fileRec107)] (by decide)
  rw [h]
  decide

/-! ## Claim C6 (code bug)

`Pipeline.Prepare` (pipeline.go:216-228) does return the first template
compile error, but `readConfig` calls it as a bare statement
(`pipeline.Prepare()`, viirs-watcher.go:315) and then returns `nil`, so
`main` never sees the error and proceeds to the watch loop with an
uncompiled step template (whose later use would dereference a nil
`*template.Template`).  The spec's "fatal, halts startup" matches the
evident intent of `Prepare`'s error return; the dropped error is a slip
in the code. -/

/-- C6: a pipeline whose only step has the non-compiling command template
`((` makes `Pipeline.Prepare` report a compile error, yet the `readConfig`
tail discards it and startup proceeds to the watch loop. -/
theorem readConfig_discards_prepare_error :
    (pipelinePrepare pipeBadCmd).2 = some TplErr.unclosedAct ∧
    readConfigFinish pipeBadCmd = .ok (pipelinePrepare pipeBadCmd).1 ∧
    mainReachesWatchLoop pipeBadCmd = true := by
  exact ⟨by decide, by decide, by decide⟩

/-! ## Claim C4 (corrected)

`RequiredFound` counts distinct registered file *names*
(viirs-watcher.go:244-256): it is incremented whenever a file name new to
the group is registered, regardless of whether its required prefix was
already present.  Two distinct files sharing one required prefix within a
group push the count past the configured required-kind count. -/

/-- C4 counterexample: with one configured required prefix `A`, the two
files `A_a_b_c_d_1.h5` and `A_a_b_c_d_2.h5` land in the same group and
drive its found-count to 2, exceeding the required-kind count 1. -/
theorem requiredFound_bound_counterexample :
    (smFind? (watchRun reqA 0 initWatcher [evA1, evA2]).1.wfound idA).map
      (fun g => g.requiredFound) = some 2 ∧
    reqA.length = 1 := by
  exact ⟨by decide, by decide⟩

/-! ## Context-propagation lemmas for `Step.EvalVariables` -/

theorem smFind?_writeBack (ctx nctx : Ctx) (k : GoStr) :
    smFind? (writeBack ctx nctx) k =
      (smFind? ctx k).map (fun _ => (smFind? nctx k).getD Value.nilV) := by
  induction ctx with
  | nil => simp [writeBack, smFind?]
  | cons hd tl ih =>
    obtain ⟨k', v'⟩ := hd
    by_cases hk : k' = k
    · simp [writeBack, smFind?, hk]
    · simpa [writeBack, smFind?, hk] using ih

theorem evalVarsInto_isSome (vs : List GoVar) (ctx : Ctx) :
    ∀ (acc nctx : Ctx) (k : GoStr), evalVarsInto vs ctx acc = .ok nctx →
      (smFind? acc k).isSome → (smFind? nctx k).isSome := by
  induction vs with
  | nil =>
    intro acc nctx k h hk
    simp only [evalVarsInto] at h
    cases h
    exact hk
  | cons v vs ih =>
    intro acc nctx k h hk
    simp only [evalVarsInto] at h
    cases hev : varEval v ctx with
    | error e => rw [hev] at h; cases h
    | ok val =>
      rw [hev] at h
      exact ih _ _ _ h (smFind?_smInsert_isSome _ _ _ _ hk)

/-! ## Claim C2 (confirmed)

The write-back loop of `Step.EvalVariables` (pipeline.go:123-125) copies
`nctx[k]` back into `ctx[k]` for exactly the keys already in `ctx`: a
pre-existing key takes the step-local copy's final value (so a step's
redefinition persists), while a key first introduced by the step's local
variables never enters the shared map.  `Step.Exec` performs no further
mutation of the shared map. -/

/-- C2: after a successful `Step.EvalVariables`, every key present in the
shared context before the step holds the step-local copy's final value
for that key, every key absent before is still absent, and `Step.Exec`
leaves the shared context exactly as `EvalVariables` left it. -/
theorem stepEvalVariables_partial_leakage (s : GoStep) (ctx nctx ctxA : Ctx)
    (h : stepEvalVariables s ctx = (.ok nctx, ctxA)) :
    (∀ k v, smFind? ctx k = some v → smFind? ctxA k = smFind? nctx k) ∧
    (∀ k, smFind? ctx k = none → smFind? ctxA k = none) ∧
    (stepExec s ctx).2 = ctxA := by
  have hsplit : evalVarsInto s.vars ctx ctx = .ok nctx ∧ ctxA = writeBack ctx nctx := by
    cases hev : evalVarsInto s.vars ctx ctx with
    | error e => simp only [stepEvalVariables, hev] at h; cases h
    | ok m =>
      simp only [stepEvalVariables, hev] at h
      obtain ⟨h1, h2⟩ := Prod.mk.injEq .. ▸ h
      cases h1
      exact ⟨rfl, h2.symm⟩
  obtain ⟨hev, hwb⟩ := hsplit
  refine ⟨?_, ?_, ?_⟩
  · intro k v hk
    have hsome : (smFind? nctx k).isSome :=
      evalVarsInto_isSome s.vars ctx ctx nctx k hev (by simp [hk])
    obtain ⟨w, hw⟩ := Option.isSome_iff_exists.mp hsome
    rw [hwb, smFind?_writeBack, hk, hw]
    simp
  · intro k hk
    rw [hwb, smFind?_writeBack, hk]
    rfl
  · simp only [stepExec, stepEvalVariables, hev]
    cases s.command with
    | none => simp [hwb]
    | some c =>
      rcases hr : renderTpl c nctx with e | txt <;> simp [hr, hwb]

/-- C2 witness: the spec's leakage example.  Shared context `X = 1`; the
step declares pre-existing `X = "2"` and fresh `Y = "9"`: afterwards the
shared context holds the step-local value for `X` (the integer 2) and
still has no `Y`. -/
theorem stepEvalVariables_partial_leakage_witness :
    smFind? (stepEvalVariables stepXY ctxX1).2 ['X'] = some (Value.intV 2) ∧
    smFind? (stepEvalVariables stepXY ctxX1).2 ['Y'] = none := by
  have h := stepEvalVariables_partial_leakage stepXY ctxX1
    [(['X'], .intV 2), (['Y'], .intV 9)] [(['X'], .intV 2)] (by decide)
  have hpair : stepEvalVariables stepXY ctxX1 =
      (.ok [(['X'], .intV 2), (['Y'], .intV 9)], [(['X'], .intV 2)]) := by decide
  constructor
  · rw [hpair]
    rw [h.1 ['X'] (.intV 1) (by decide)]
    decide
  · rw [hpair]
    exact h.2.1 ['Y'] (by decide)

/-! ## Claim C9 (corrected)

The loop of `Step.EvalVariables` (pipeline.go:116-122) evaluates every
local variable against the *shared* map `ctx`
(`s.Variables[i].Eval(ctx)`), not against the accumulating copy `nctx`,
so a later local variable's template sees the inherited context only —
never the values of earlier local variables of the same step. -/

/-- The last declaration of name `k` in a variable list. -/
def lastVar : List GoVar → GoStr → Option GoVar
  | [], _ => none
  | v :: vs, k =>
    match lastVar vs k with
    | some w => some w
    | none => if v.vname = k then some v else none

theorem evalVarsInto_inherited (ctx : Ctx) (vs : List GoVar) :
    ∀ acc : Ctx, (∀ v ∈ vs, ∃ val, varEval v ctx = .ok val) →
      ∃ nctx, evalVarsInto vs ctx acc = .ok nctx ∧
        ∀ k, smFind? nctx k =
          match lastVar vs k with
          | some v => (varEval v ctx).toOption
          | none => smFind? acc k := by
  induction vs with
  | nil =>
    intro acc _
    exact ⟨acc, rfl, fun k => rfl⟩
  | cons v vs ih =>
    intro acc h
    obtain ⟨val, hval⟩ := h v (List.mem_cons_self _ _)
    obtain ⟨nctx, heq, hfind⟩ :=
      ih (smInsert acc v.vname val) (fun w hw => h w (List.mem_cons_of_mem _ hw))
    refine ⟨nctx, ?_, ?_⟩
    · simp only [evalVarsInto, hval]
      exact heq
    · intro k
      have hk := hfind k
      cases hl : lastVar vs k with
      | some w =>
        rw [hl] at hk
        simp only [lastVar, hl]
        exact hk
      | none =>
        rw [hl] at hk
        simp only [lastVar, hl]
        rw [hk, smFind?_smInsert]
        by_cases hv : v.vname = k
        · simp only [if_pos hv, hval]
          rfl
        · simp only [if_neg hv]

/-- C9 counterexample: shared context `V1 = "old"`; the step declares
`V1 = "new"` and then `V2 = "((.V1))"`.  If later local variables could
reference earlier ones, `V2` would render to `"new"`; the code renders
each local variable against the inherited context, so `V2` gets `"old"`. -/
theorem step_vars_ignore_earlier_locals_counterexample :
    (stepEvalVariables stepV12 ctxV1old).1 =
      .ok [(['V', '1'], .strV ['n', 'e', 'w']), (['V', '2'], .strV ['o', 'l', 'd'])] ∧
    ¬ (['o', 'l', 'd'] : GoStr) = ['n', 'e', 'w'] := by
  exact ⟨by decide, by decide⟩

/-- C9 amended: the step's local variables are evaluated in declared
order into the step-local copy (a later declaration of the same name
overwriting an earlier one), but each one's template is rendered against
the inherited pre-step context only, so later local variables see
inherited values, never the values of earlier local variables of the
same step. -/
theorem step_vars_order_and_inherited_ctx (s : GoStep) (ctx : Ctx)
    (h : ∀ v ∈ s.vars, ∃ val, varEval v ctx = .ok val) :
    ∃ nctx, (stepEvalVariables s ctx).1 = .ok nctx ∧
      (∀ k v, lastVar s.vars k = some v → smFind? nctx k = (varEval v ctx).toOption) ∧
      (∀ k, lastVar s.vars k = none → smFind? nctx k = smFind? ctx k) := by
  obtain ⟨nctx, heq, hfind⟩ := evalVarsInto_inherited ctx s.vars ctx h
  refine ⟨nctx, ?_, ?_, ?_⟩
  · simp only [stepEvalVariables, heq]
  · intro k v hk
    have := hfind k
    rw [hk] at this
    exact this
  · intro k hk
    have := hfind k
    rw [hk] at this
    exact this

/-- C9 witness: the amended theorem applied to `stepV12` over
`ctxV1old`: `V2` holds the inherited `"old"`, and the untouched inherited
binding is preserved for absent names. -/
theorem step_vars_order_and_inherited_ctx_witness :
    ∃ nctx, (stepEvalVariables stepV12 ctxV1old).1 = .ok nctx ∧
      (∀ k v, lastVar stepV12.vars k = some v → smFind? nctx k = (varEval v ctxV1old).toOption) ∧
      (∀ k, lastVar stepV12.vars k = none → smFind? nctx k = smFind? ctxV1old k) := by
  refine step_vars_order_and_inherited_ctx stepV12 ctxV1old ?_
  intro v hv
  rcases List.mem_cons.mp hv with h1 | h1
  · exact ⟨.strV ['n', 'e', 'w'], by rw [h1]; decide⟩
  · rcases List.mem_cons.mp h1 with h2 | h2
    · exact ⟨.strV ['o', 'l', 'd'], by rw [h2]; decide⟩
    · cases h2

/-! ## Claim C10 (confirmed)

In `Step.EvalVariables` (pipeline.go:116-127) the first failing local
variable evaluation returns immediately with that error; the write-back
loop over the shared map's keys runs only after every local variable
evaluated successfully, so on error the shared map is untouched.
`Step.Exec` (pipeline.go:129-133) then propagates the error without
touching the context either. -/

theorem evalVarsInto_first_error (ctx : Ctx) (v : GoVar) (post : List GoVar) (e : TplErr)
    (hfail : varEval v ctx = .error e) :
    ∀ (pre : List GoVar) (acc : Ctx), (∀ w ∈ pre, ∃ val, varEval w ctx = .ok val) →
      evalVarsInto (pre ++ v :: post) ctx acc = .error e := by
  intro pre
  induction pre with
  | nil =>
    intro acc _
    simp only [List.nil_append, evalVarsInto, hfail]
  | cons w pre ih =>
    intro acc h
    obtain ⟨val, hval⟩ := h w (List.mem_cons_self _ _)
    simp only [List.cons_append, evalVarsInto, hval]
    exact ih _ (fun u hu => h u (List.mem_cons_of_mem _ hu))

/-- C10: if some local variable of a step fails to evaluate (all the ones
declared before it succeeding), `Step.EvalVariables` returns that
variable's error and the shared context is returned exactly as it was
passed in — no key added, removed, or changed. -/
theorem stepEvalVariables_error_preserves_ctx (s : GoStep) (ctx : Ctx)
    (pre post : List GoVar) (v : GoVar) (e : TplErr)
    (hsplit : s.vars = pre ++ v :: post)
    (hok : ∀ w ∈ pre, ∃ val, varEval w ctx = .ok val)
    (hfail : varEval v ctx = .error e) :
    stepEvalVariables s ctx = (.error e, ctx) := by
  have hev : evalVarsInto s.vars ctx ctx = .error e := by
    rw [hsplit]
    exact evalVarsInto_first_error ctx v post e hfail pre ctx hok
  simp only [stepEvalVariables, hev]

/-- C10 witness: the step whose single local variable renders the
failing template `((.A.B))` against the shared context `X = 1`: the
evaluation error is returned and the shared context is unchanged. -/
theorem stepEvalVariables_error_preserves_ctx_witness :
    stepEvalVariables stepBadVar ctxX1 = (.error TplErr.cantEvalField, ctxX1) := by
  refine stepEvalVariables_error_preserves_ctx stepBadVar ctxX1 [] [] varBadChain
    TplErr.cantEvalField rfl ?_ (by decide)
  intro w hw
  cases hw

/-! ## Claim C7 (confirmed)

`Variable.Prepare` (pipeline.go:48-59) compiles only string raw values;
`Variable.Eval` (pipeline.go:61-78) returns a template-less variable's
raw value unchanged and otherwise renders the template and coerces the
result via `ParseBool`, `ParseInt(…,10,64)`, `ParseFloat(…,64)`, first
success winning, else the rendered string. -/

/-- Prepare a freshly-unmarshalled variable and evaluate it. -/
def prepEval (n : GoStr) (val : Value) (ctx : Ctx) : Except TplErr Value :=
  match varPrepare (mkRawVar n val) with
  | .ok w => varEval w ctx
  | .error e => .error e

/-- C7: a prepared variable with a non-string raw value evaluates to that
value unchanged; a prepared string variable renders its compiled template
against the context and coerces the result through the strict
bool-int-float cascade.  Concretely (for any context): `"true"` → boolean
`true`, `"42"` → integer `42`, `"3.14"` → float `3.14` (the exact
rational 157/50), `"hello"` → the string `"hello"`. -/
theorem variable_eval_coercion :
    (∀ (n : GoStr) (val : Value) (v' : GoVar) (ctx : Ctx),
        varPrepare (mkRawVar n val) = .ok v' →
        (val.isStr = false → varEval v' ctx = .ok val) ∧
        (∀ s, val = .strV s → ∃ t, parseTpl s = .ok t ∧
            varEval v' ctx =
              match renderTpl t ctx with
              | .error e => .error e
              | .ok r => .ok (coerce r))) ∧
    prepEval ['v'] (.strV ['t', 'r', 'u', 'e']) [] = .ok (.boolV true) ∧
    prepEval ['v'] (.strV ['4', '2']) [] = .ok (.intV 42) ∧
    prepEval ['v'] (.strV ['3', '.', '1', '4']) [] =
        .ok (.floatV (.finite (mkRat 157 50))) ∧
    prepEval ['v'] (.strV ['h', 'e', 'l', 'l', 'o']) [] =
        .ok (.strV ['h', 'e', 'l', 'l', 'o']) := by
  refine ⟨?_, by decide, by decide, by decide, by decide⟩
  intro n val v' ctx h
  constructor
  · intro hstr
    cases val with
    | strV s => simp [Value.isStr] at hstr
    | nilV =>
      simp only [varPrepare, mkRawVar] at h
      cases h
      rfl
    | boolV b =>
      simp only [varPrepare, mkRawVar] at h
      cases h
      rfl
    | intV i =>
      simp only [varPrepare, mkRawVar] at h
      cases h
      rfl
    | floatV f =>
      simp only [varPrepare, mkRawVar] at h
      cases h
      rfl
  · intro s hs
    subst hs
    simp only [varPrepare, mkRawVar] at h
    cases hp : parseTpl s with
    | error e => rw [hp] at h; cases h
    | ok t =>
      rw [hp] at h
      cases h
      refine ⟨t, rfl, ?_⟩
      simp only [varEval]

/-- C7 witness: a prepared non-string variable (the integer 7) passes
through evaluation unchanged, and the concrete `"3.14"` coercion holds in
the empty context. -/
theorem variable_eval_coercion_witness :
    varEval (mkRawVar ['n'] (.intV 7)) [] = .ok (.intV 7) ∧
    prepEval ['v'] (.strV ['3', '.', '1', '4']) [] = .ok (.floatV (.finite (mkRat 157 50))) := by
  constructor
  · exact (variable_eval_coercion.1 ['n'] (.intV 7) (mkRawVar ['n'] (.intV 7)) [] rfl).1 rfl
  · exact variable_eval_coercion.2.2.2.1

/-! ## Watcher lemmas: the ready set and dispatching -/

/-- The group opened on first discovery (viirs-watcher.go:215-221). -/
def freshGroup (e : Ev) (id : GoStr) : WGroup :=
  { files := [], lastModified := 0, gpath := goDirOf e.epath, gid := id, requiredFound := 0 }

theorem watchStep_shape (req : List GoStr) (launch : Int) (st : WSt) (e : Ev) :
    watchStep req launch st e = (st, none) ∨
    ∃ id grp0, getId e.ename = .ok id ∧ smFind? st.wready id = none ∧
      watchStep req launch st e = groupAfter req launch st e id grp0 ∧
      (smFind? st.wfound id = some grp0 ∨
        (smFind? st.wfound id = none ∧ grp0 = freshGroup e id)) := by
  simp only [watchStep]
  split
  · exact .inl rfl
  split
  · exact .inl rfl
  split
  · exact .inl rfl
  rename_i id0 hgid
  split
  · exact .inl rfl
  rename_i hguard
  have hnone : smFind? st.wready id0 = none := by
    cases hfr : smFind? st.wready id0 with
    | none => rfl
    | some g => rw [hfr] at hguard; simp at hguard
  split
  · rename_i grp0 hfound
    exact .inr ⟨id0, grp0, hgid, hnone, rfl, .inl hfound⟩
  rename_i hnotfound
  split
  · exact .inl rfl
  · exact .inr ⟨id0, freshGroup e id0, hgid, hnone, rfl, .inr ⟨hnotfound, rfl⟩⟩

theorem groupAfter_ready_mono (req : List GoStr) (launch : Int) (st : WSt) (e : Ev)
    (id : GoStr) (g : WGroup) (i : GoStr)
    (h : (smFind? st.wready i).isSome) :
    (smFind? (groupAfter req launch st e id g).1.wready i).isSome := by
  simp only [groupAfter]
  split
  · exact smFind?_smInsert_isSome _ _ _ _ h
  · exact h

theorem groupAfter_found (req : List GoStr) (launch : Int) (st : WSt) (e : Ev)
    (id : GoStr) (g : WGroup) :
    (groupAfter req launch st e id g).1.wfound = smInsert st.wfound id (updGroup e g) := rfl

theorem readyDisp_some (req : List GoStr) (launch : Int) (e : Ev) (id : GoStr)
    (g : WGroup) (i : GoStr) (h : (readyDisp req launch e id g).2 = some i) :
    i = id ∧ (readyDisp req launch e id g).1 = true := by
  by_cases hreq : req.length = g.requiredFound
  · cases hac : anyChanged e.estat g.files with
    | error u => simp [readyDisp, hreq, hac] at h
    | ok b =>
      cases b with
      | true => simp [readyDisp, hreq, hac] at h
      | false =>
        by_cases hl : launch < g.lastModified
        · have h2 : readyDisp req launch e id g = (true, some id) := by
            simp [readyDisp, hreq, hac, hl]
          rw [h2] at h
          simp only [Option.some.injEq] at h
          exact ⟨h.symm, by rw [h2]⟩
        · simp [readyDisp, hreq, hac, hl] at h
  · simp [readyDisp, hreq] at h

theorem groupAfter_dispatch (req : List GoStr) (launch : Int) (st : WSt) (e : Ev)
    (id : GoStr) (g : WGroup) (i : GoStr)
    (h : (groupAfter req launch st e id g).2 = some i) :
    i = id ∧ (smFind? (groupAfter req launch st e id g).1.wready i).isSome := by
  obtain ⟨hid, hb⟩ := readyDisp_some req launch e id g i h
  refine ⟨hid, ?_⟩
  simp only [groupAfter, hb, if_pos]
  rw [hid, smFind?_smInsert]
  simp

theorem watchStep_ready_mono (req : List GoStr) (launch : Int) (st : WSt) (e : Ev)
    (i : GoStr) (h : (smFind? st.wready i).isSome) :
    (smFind? (watchStep req launch st e).1.wready i).isSome := by
  rcases watchStep_shape req launch st e with hs | ⟨id, grp0, _, _, hs, _⟩
  · rw [hs]; exact h
  · rw [hs]; exact groupAfter_ready_mono req launch st e id grp0 i h

theorem watchStep_dispatch (req : List GoStr) (launch : Int) (st : WSt) (e : Ev)
    (i : GoStr) (h : (watchStep req launch st e).2 = some i) :
    smFind? st.wready i = none ∧
    (smFind? (watchStep req launch st e).1.wready i).isSome := by
  rcases watchStep_shape req launch st e with hs | ⟨id, grp0, _, hrdy, hs, _⟩
  · rw [hs] at h; cases h
  · rw [hs] at h ⊢
    obtain ⟨hid, hsome⟩ := groupAfter_dispatch req launch st e id grp0 i h
    subst hid
    exact ⟨hrdy, hsome⟩

theorem watchRun_count_zero_of_ready (req : List GoStr) (launch : Int) (evs : List Ev) :
    ∀ (st : WSt) (i : GoStr), (smFind? st.wready i).isSome →
      ((watchRun req launch st evs).2.count i) = 0 := by
  induction evs with
  | nil => intro st i _; rfl
  | cons e evs ih =>
    intro st i h
    simp only [watchRun]
    cases hd : (watchStep req launch st e).2 with
    | none =>
      simp only [hd, Option.toList_none, List.nil_append]
      exact ih _ i (watchStep_ready_mono req launch st e i h)
    | some j =>
      have hdp := watchStep_dispatch req launch st e j hd
      have hji : ¬ j = i := by
        intro hji
        rw [hji] at hdp
        rw [hdp.1] at h
        cases h
      simp only [hd, Option.toList_some, List.singleton_append]
      rw [List.count_cons_of_ne (by simpa using fun hc => hji hc.symm)]
      exact ih _ i (watchStep_ready_mono req launch st e i h)

theorem watchRun_count_le_one (req : List GoStr) (launch : Int) (evs : List Ev) :
    ∀ (st : WSt) (i : GoStr), ((watchRun req launch st evs).2.count i) ≤ 1 := by
  induction evs with
  | nil => intro st i; simp [watchRun]
  | cons e evs ih =>
    intro st i
    simp only [watchRun]
    cases hd : (watchStep req launch st e).2 with
    | none =>
      simp only [hd, Option.toList_none, List.nil_append]
      exact ih _ i
    | some j =>
      have hdp := watchStep_dispatch req launch st e j hd
      simp only [hd, Option.toList_some, List.singleton_append]
      by_cases hij : j = i
      · subst hij
        rw [List.count_cons_self]
        rw [watchRun_count_zero_of_ready req launch evs _ j hdp.2]
      · rw [List.count_cons_of_ne (by simpa using fun hc => hij hc.symm)]
        exact ih _ i

/-! ## Claim C1 (confirmed)

The walk callback skips any file whose id is already in the `ready`
registry (viirs-watcher.go:207-209), inserts the group into `ready`
before invoking `Process` (viirs-watcher.go:229-231), and `ready` is
never shrunk — so over any sequence of watch-loop steps from a fresh
watcher, `Process` runs at most once per group id. -/

/-- C1: over every run of the watch loop from `NewWatcher`'s initial
state, each group id is dispatched to `Process` at most once: the group
enters the ready registry before dispatch, and any later discovery whose
id is already ready is ignored. -/
theorem watch_dispatch_at_most_once (req : List GoStr) (launch : Int)
    (evs : List Ev) (id : GoStr) :
    ((watchRun req launch initWatcher evs).2.count id) ≤ 1 :=
  watchRun_count_le_one req launch evs initWatcher id

/-! ## Claim C4, amended theorem

`RequiredFound` never decreases (the callback only increments it), and it
always equals the number of registered tracked files of the group — which
is the real bound; it is *not* bounded by the required-prefix count, as
the counterexample above shows. -/

theorem updFiles_rf_mono (e : Ev) (g : WGroup) :
    g.requiredFound ≤ (updFiles e g).requiredFound := by
  simp only [updFiles]
  split <;> simp

theorem updFiles_rf_files (e : Ev) (g : WGroup)
    (h : g.requiredFound = g.files.length) :
    (updFiles e g).requiredFound = (updFiles e g).files.length := by
  simp only [updFiles]
  cases hfind : smFind? g.files e.ename with
  | none =>
    simp only
    rw [smInsert_length_of_find?_none _ _ _ hfind, h]
  | some f =>
    simp only
    rw [smInsert_length_of_find?_some _ _ _ _ hfind, h]

theorem touchLM_fields (e : Ev) (g : WGroup) :
    (if g.lastModified < e.emtime then { g with lastModified := e.emtime } else g).requiredFound
      = g.requiredFound ∧
    (if g.lastModified < e.emtime then { g with lastModified := e.emtime } else g).files
      = g.files := by
  split <;> exact ⟨rfl, rfl⟩

theorem updGroup_rf_mono (e : Ev) (g : WGroup) :
    g.requiredFound ≤ (updGroup e g).requiredFound := by
  simp only [updGroup]
  have h := updFiles_rf_mono e
    (if g.lastModified < e.emtime then { g with lastModified := e.emtime } else g)
  rw [(touchLM_fields e g).1] at h
  exact h

theorem updGroup_rf_files (e : Ev) (g : WGroup)
    (h : g.requiredFound = g.files.length) :
    (updGroup e g).requiredFound = (updGroup e g).files.length := by
  simp only [updGroup]
  refine updFiles_rf_files e _ ?_
  rw [(touchLM_fields e g).1, (touchLM_fields e g).2]
  exact h

/-- The found-count/file-count invariant of a watcher state. -/
def rfInv (st : WSt) : Prop :=
  ∀ id g, smFind? st.wfound id = some g → g.requiredFound = g.files.length

theorem watchStep_rf_mono (req : List GoStr) (launch : Int) (st : WSt) (e : Ev)
    (id : GoStr) (g g' : WGroup)
    (hg : smFind? st.wfound id = some g)
    (hg' : smFind? (watchStep req launch st e).1.wfound id = some g') :
    g.requiredFound ≤ g'.requiredFound := by
  rcases watchStep_shape req launch st e with hs | ⟨id0, grp0, _, _, hs, hfound⟩
  · rw [hs] at hg'
    rw [hg] at hg'
    cases hg'
    exact le_refl _
  · rw [hs, groupAfter_found, smFind?_smInsert] at hg'
    by_cases hid : id0 = id
    · rw [if_pos hid] at hg'
      cases hg'
      rcases hfound with hfound | ⟨hfound, _⟩
      · rw [hid, hg] at hfound
        cases hfound
        exact updGroup_rf_mono e _
      · rw [hid, hg] at hfound
        cases hfound
    · rw [if_neg hid, hg] at hg'
      cases hg'
      exact le_refl _

theorem watchStep_rfInv (req : List GoStr) (launch : Int) (st : WSt) (e : Ev)
    (h : rfInv st) : rfInv (watchStep req launch st e).1 := by
  intro id g hg
  rcases watchStep_shape req launch st e with hs | ⟨id0, grp0, _, _, hs, hfound⟩
  · rw [hs] at hg
    exact h id g hg
  · rw [hs, groupAfter_found, smFind?_smInsert] at hg
    by_cases hid : id0 = id
    · rw [if_pos hid] at hg
      cases hg
      rcases hfound with hfound | ⟨_, hfresh⟩
      · exact updGroup_rf_files e grp0 (h id0 grp0 hfound)
      · rw [hfresh]
        exact updGroup_rf_files e _ rfl
    · rw [if_neg hid] at hg
      exact h id g hg

theorem watchRun_rfInv (req : List GoStr) (launch : Int) (evs : List Ev) :
    ∀ st : WSt, rfInv st → rfInv (watchRun req launch st evs).1 := by
  induction evs with
  | nil => intro st h; exact h
  | cons e evs ih =>
    intro st h
    exact ih _ (watchStep_rfInv req launch st e h)

/-- C4 amended: a group's found-count never decreases across watch-loop
steps, and (from the initial watcher state) it always equals the number
of distinct tracked file names registered in the group — that is its only
bound; it is not bounded by the configured required-prefix count. -/
theorem requiredFound_monotone_and_counts_files (req : List GoStr) (launch : Int) :
    (∀ (st : WSt) (e : Ev) (id : GoStr) (g g' : WGroup),
        smFind? st.wfound id = some g →
        smFind? (watchStep req launch st e).1.wfound id = some g' →
        g.requiredFound ≤ g'.requiredFound) ∧
    (∀ (evs : List Ev) (id : GoStr) (g : WGroup),
        smFind? (watchRun req launch initWatcher evs).1.wfound id = some g →
        g.requiredFound = g.files.length) := by
  constructor
  · intro st e id g g' hg hg'
    exact watchStep_rf_mono req launch st e id g g' hg hg'
  · intro evs id g hg
    exact watchRun_rfInv req launch evs initWatcher (by intro i g' h; cases h) id g hg

/-- A throwaway group used to name concrete lookup results. -/
def dummyGroup : WGroup :=
  { files := [], lastModified := 0, gpath := [], gid := [], requiredFound := 0 }

/-- The group of `idA` after discovering `evA1`. -/
def c4g1 : WGroup :=
  (smFind? (watchRun reqA 0 initWatcher [evA1]).1.wfound idA).getD dummyGroup

/-- The group of `idA` after additionally discovering `evA2`. -/
def c4g2 : WGroup :=
  (smFind? (watchStep reqA 0 (watchRun reqA 0 initWatcher [evA1]).1 evA2).1.wfound idA).getD
    dummyGroup

/-- C4 witness: the amended theorem applied to the concrete two-file
discovery sequence: the found-count grows from 1 to 2 and equals the
number of tracked files after the first event. -/
theorem requiredFound_monotone_and_counts_files_witness :
    c4g1.requiredFound ≤ c4g2.requiredFound ∧ c4g1.requiredFound = c4g1.files.length := by
  constructor
  · exact (requiredFound_monotone_and_counts_files reqA 0).1
      (watchRun reqA 0 initWatcher [evA1]).1 evA2 idA c4g1 c4g2 (by decide) (by decide)
  · exact (requiredFound_monotone_and_counts_files reqA 0).2 [evA1] idA c4g1 (by decide)

end VW
